import Mathlib

/-!
Verification of the grid-layout and pagination logic of
`src/batch_images_to_a4_pdf_with_logging.py` (image-to-A4-PDF batch tool).

The embedding below translates the layout arithmetic of `create_a4_pdf`
(cell geometry, scale-to-fit placement, pagination, the per-page placement
loop with its per-item error handling) and the control flow of
`batch_process_folder` into Lean. Geometry is over exact rationals; the
reportlab `A4` constants `210 mm × 297 mm` at `72 / 25.4` points per mm are
the exact rationals `75600 / 127 × 106920 / 127`.
-/

namespace A4Tool

/-- Outer page margin, `margin = 40` in `create_a4_pdf` (line 72). -/
def margin : ℚ := 40

/-- Margin between grid cells, `inner_margin = 20` (line 73). -/
def inner_margin : ℚ := 20

/-- A4 page width in points (reportlab `A4`): `210 * 72 / 25.4 = 75600 / 127`. -/
def a4_width : ℚ := 75600 / 127

/-- A4 page height in points: `297 * 72 / 25.4 = 106920 / 127`. -/
def a4_height : ℚ := 106920 / 127

/-- Width of one grid cell, the source's local `img_width`:
`(effective_width - inner_margin) / 2` with `effective_width = W - 2 * margin`
(lines 76 and 80), generalized over page width and margins. -/
def cellW (W m im : ℚ) : ℚ := (W - 2 * m - im) / 2

/-- Height of one grid cell, the source's local `img_height`:
`(effective_height - 2 * inner_margin) / 3` with
`effective_height = H - 2 * margin` (lines 77 and 81). -/
def cellH (H m im : ℚ) : ℚ := (H - 2 * m - 2 * im) / 3

/-- An axis-aligned rectangle given by its lower-left corner and size. -/
structure Box where
  x : ℚ
  y : ℚ
  w : ℚ
  h : ℚ
deriving DecidableEq

/-- Bounding box of the cell at `(row, col)`:
`x = margin + col * (img_width + inner_margin)` and
`y = a4_height - margin - (row + 1) * img_height - row * inner_margin`
(lines 133 and 135), generalized over page size and margins as in the
`computeCellBox` contract. -/
def computeCellBox (W H m im : ℚ) (row col : ℕ) : Box :=
  ⟨m + (col : ℚ) * (cellW W m im + im),
   H - m - ((row : ℚ) + 1) * cellH H m im - (row : ℚ) * im,
   cellW W m im,
   cellH H m im⟩

/-- Membership of a point in a (closed) box. -/
def pointInBox (q : ℚ × ℚ) (b : Box) : Prop :=
  b.x ≤ q.1 ∧ q.1 ≤ b.x + b.w ∧ b.y ≤ q.2 ∧ q.2 ≤ b.y + b.h

/-- Membership of a point in the page's effective drawing area
`[margin, W - margin] × [margin, H - margin]`. -/
def pointInArea (q : ℚ × ℚ) (W H m : ℚ) : Prop :=
  m ≤ q.1 ∧ q.1 ≤ W - m ∧ m ≤ q.2 ∧ q.2 ≤ H - m

/-- The scale factor chosen in lines 115-123: compare the image's aspect to the
cell's aspect; scale by width when the image is relatively wider, by height
otherwise. -/
def fitScale (iw ih cw ch : ℚ) : ℚ :=
  if iw / ih > cw / ch then cw / iw else ch / ih

/-- Result of placing one image into one cell: a uniform scale and the offsets
of the drawn image from the cell's lower-left corner. -/
structure Placement where
  scale : ℚ
  offsetX : ℚ
  offsetY : ℚ
deriving DecidableEq

/-- Scale and centering offsets for an `iw × ih` image in a `cw × ch` cell.
The scale is lines 115-123; the offsets are the `drawImage` arguments
`x + (img_width - new_width) / 2` and `y + (img_height - new_height) / 2`
(lines 140-141), with `new_width = img.width * scale` and
`new_height = img.height * scale` (lines 126-127). -/
def computePlacement (iw ih cw ch : ℚ) : Placement :=
  ⟨fitScale iw ih cw ch,
   (cw - iw * fitScale iw ih cw ch) / 2,
   (ch - ih * fitScale iw ih cw ch) / 2⟩

/-- Modelled from the spec: the §4.1 `computePlacement` contract, written out
from the spec's own formulas — `scale = cellWidth/imgWidth` if
`imgWidth/imgHeight > cellWidth/cellHeight`, else `cellHeight/imgHeight`;
`offsetX = (cellWidth − imgWidth·scale)/2`, `offsetY = (cellHeight − imgHeight·scale)/2`.
Used only to compare the implementation against the spec's formulas. -/
def computePlacementSpec (iw ih cw ch : ℚ) : Placement :=
  ⟨if iw / ih > cw / ch then cw / iw else ch / ih,
   (cw - iw * (if iw / ih > cw / ch then cw / iw else ch / ih)) / 2,
   (ch - ih * (if iw / ih > cw / ch then cw / iw else ch / ih)) / 2⟩

/-- One input image: whether its file exists (the `os.path.exists` check,
line 103), whether it decodes and draws without an exception (the
`Image.open`/`verify`/`drawImage` path, lines 108-156, whose exceptions are
caught at line 159), and its natural dimensions. -/
structure ImageEntry where
  fileExists : Bool
  decodable : Bool
  width : ℚ
  height : ℚ
deriving DecidableEq

/-- An entry is placed iff its file exists and it decodes/draws cleanly;
otherwise the loop body hits a `continue` and the entry is skipped. -/
def ok (e : ImageEntry) : Bool := e.fileExists && e.decodable

/-- `images_per_page = 6` (line 85). -/
def images_per_page : ℕ := 6

/-- `total_pages = (total_images + images_per_page - 1) // images_per_page`
(line 86), i.e. the ceiling of `n / 6` in integer arithmetic. -/
def total_pages (n : ℕ) : ℕ := (n + images_per_page - 1) / images_per_page

/-- The slice `image_paths[start_idx:end_idx]` with `start_idx = p * 6` and
`end_idx = min((p + 1) * 6, total_images)` (lines 93-95). -/
def page_images (paths : List ImageEntry) (p : ℕ) : List ImageEntry :=
  (paths.drop (p * images_per_page)).take
    (min ((p + 1) * images_per_page) paths.length - p * images_per_page)

/-- One image actually drawn on a page: the page it is on, the enumeration
index `i` it had in the loop (its slot), the derived grid coordinates
`row = i // 2`, `col = i % 2` (lines 130-131), and the entry itself. -/
structure PlacedImage where
  pageIdx : ℕ
  slot : ℕ
  row : ℕ
  col : ℕ
  entry : ImageEntry
deriving DecidableEq

/-- The per-page loop `for i, img_path in enumerate(page_images)` (line 100)
as an index-carrying recursion: the entry at enumeration index `i` is drawn at
`row = i // 2`, `col = i % 2` when it is placeable, and otherwise the body
reaches `continue` (line 105 or 161) — the index still advances. -/
def placeSlots (p : ℕ) : ℕ → List ImageEntry → List PlacedImage
  | _, [] => []
  | i, e :: rest =>
    if ok e then ⟨p, i, i / 2, i % 2, e⟩ :: placeSlots p (i + 1) rest
    else placeSlots p (i + 1) rest

/-- All images drawn on page `p`: the loop of line 100 run over the page's
slice, starting from enumeration index 0. -/
def placePage (entries : List ImageEntry) (p : ℕ) : List PlacedImage :=
  placeSlots p 0 (page_images entries p)

/-- Modelled from the spec: the §4.1/§8 claim that skipped entries are
"filtered before indexing", so the remaining entries of a page compact
towards slot 0. Used only to compare the implementation against the spec's
claimed behavior. -/
def placePageCompacted (entries : List ImageEntry) (p : ℕ) : List PlacedImage :=
  placeSlots p 0 ((page_images entries p).filter (fun e => ok e))

/-- `create_a4_pdf` (lines 54-174): draws every page in order and then saves.
Per-item exceptions are caught inside the loop (lines 159-161) and never
reach the function's result; the outer `try` turns a failure of the final
`c.save()` into `False` and its success into `True` (lines 167-174).
`saveOk` abstracts whether the save raises. The drawn placements are
returned alongside the boolean result as the observable layout. -/
def create_a4_pdf (entries : List ImageEntry) (saveOk : Bool) :
    List PlacedImage × Bool :=
  ((List.range (total_pages entries.length)).flatMap (placePage entries), saveOk)

/-- Observable outcome of `batch_process_folder`: its boolean return value,
whether the no-images warning of line 213 was emitted, and the result of the
`create_a4_pdf` call when one was made (`none` means no document was ever
created). -/
structure BatchResult where
  success : Bool
  warnedNoImages : Bool
  pdf : Option (List PlacedImage × Bool)
deriving DecidableEq

/-- `batch_process_folder` (lines 176-230): returns `False` when the input is
not a directory (the raise at line 188, caught at line 228); warns and
returns `False` when zero images are found (lines 212-214); otherwise calls
`create_a4_pdf` at line 223, discards its boolean result, and returns `True`
(line 226). `files` is the sorted list of discovered images. -/
def batch_process_folder (isDir : Bool) (files : List ImageEntry)
    (saveOk : Bool) : BatchResult :=
  if !isDir then ⟨false, false, none⟩
  else if files.length = 0 then ⟨false, true, none⟩
  else ⟨true, false, some (create_a4_pdf files saveOk)⟩

/-- A placeable entry used in concrete instances. -/
def goodEntry : ImageEntry := ⟨true, true, 1, 1⟩

/-- A second, distinct placeable entry used in concrete instances. -/
def entryB : ImageEntry := ⟨true, true, 2, 1⟩

/-- An entry whose file is missing: the check at line 103 skips it. -/
def badEntry : ImageEntry := ⟨false, true, 1, 1⟩

/-- Thirteen placeable entries, the spec's §8 pagination example. -/
def l13 : List ImageEntry := List.replicate 13 goodEntry

/-- Characterization of the placement loop: starting the enumeration at `n`,
the drawn images are exactly those built from a placeable entry at some index
`j` of the remaining list, with slot `n + j`. -/
lemma mem_placeSlots (p n : ℕ) (l : List ImageEntry) (q : PlacedImage) :
    q ∈ placeSlots p n l ↔
      ∃ j e, l[j]? = some e ∧ ok e = true ∧
        q = ⟨p, n + j, (n + j) / 2, (n + j) % 2, e⟩ := by
  induction l generalizing n with
  | nil => simp [placeSlots]
  | cons e rest ih =>
    simp only [placeSlots]
    by_cases he : ok e
    · rw [if_pos he]
      simp only [List.mem_cons, ih]
      constructor
      · rintro (rfl | ⟨j, f, hj, hokf, rfl⟩)
        · exact ⟨0, e, by simp, he, by simp⟩
        · refine ⟨j + 1, f, by simpa using hj, hokf, ?_⟩
          have harith : n + (j + 1) = n + 1 + j := by omega
          rw [harith]
      · rintro ⟨j, f, hj, hokf, rfl⟩
        cases j with
        | zero =>
          left
          simp only [List.getElem?_cons_zero, Option.some.injEq] at hj
          subst hj
          simp
        | succ j =>
          right
          refine ⟨j, f, by simpa using hj, hokf, ?_⟩
          have harith : n + (j + 1) = n + 1 + j := by omega
          rw [harith]
    · rw [if_neg he]
      rw [ih]
      constructor
      · rintro ⟨j, f, hj, hokf, rfl⟩
        refine ⟨j + 1, f, by simpa using hj, hokf, ?_⟩
        have harith : n + (j + 1) = n + 1 + j := by omega
        rw [harith]
      · rintro ⟨j, f, hj, hokf, rfl⟩
        cases j with
        | zero =>
          simp only [List.getElem?_cons_zero, Option.some.injEq] at hj
          subst hj
          exact absurd hokf (by simpa using he)
        | succ j =>
          refine ⟨j, f, by simpa using hj, hokf, ?_⟩
          have harith : n + (j + 1) = n + 1 + j := by omega
          rw [harith]

/-- Every image drawn by `placeSlots p n` has slot at least `n`. -/
lemma placeSlots_slot_ge (p n : ℕ) (l : List ImageEntry) (q : PlacedImage)
    (h : q ∈ placeSlots p n l) : n ≤ q.slot := by
  obtain ⟨j, f, _, _, rfl⟩ := (mem_placeSlots p n l q).1 h
  simp only
  omega

/-- Slots of the drawn images are strictly increasing along the output list. -/
lemma placeSlots_pairwise (p n : ℕ) (l : List ImageEntry) :
    (placeSlots p n l).Pairwise (fun a b => a.slot < b.slot) := by
  induction l generalizing n with
  | nil => simp [placeSlots]
  | cons e rest ih =>
    simp only [placeSlots]
    by_cases he : ok e
    · rw [if_pos he]
      refine List.Pairwise.cons ?_ (ih (n + 1))
      intro b hb
      have hge := placeSlots_slot_ge p (n + 1) rest b hb
      simp only
      omega
    · rw [if_neg he]
      exact ih (n + 1)

/-- The loop draws at most as many images as the page holds entries. -/
lemma placeSlots_length_le (p n : ℕ) (l : List ImageEntry) :
    (placeSlots p n l).length ≤ l.length := by
  induction l generalizing n with
  | nil => simp [placeSlots]
  | cons e rest ih =>
    simp only [placeSlots]
    by_cases he : ok e
    · rw [if_pos he]
      simpa using ih (n + 1)
    · rw [if_neg he]
      exact le_trans (ih (n + 1)) (by simp)

/-- The entries of the drawn images form a sublist of the page's entries:
drawing preserves the input order. -/
lemma placeSlots_entries_sublist (p n : ℕ) (l : List ImageEntry) :
    ((placeSlots p n l).map PlacedImage.entry).Sublist l := by
  induction l generalizing n with
  | nil => simp [placeSlots]
  | cons e rest ih =>
    simp only [placeSlots]
    by_cases he : ok e
    · rw [if_pos he]
      simpa using (ih (n + 1)).cons₂ e
    · rw [if_neg he]
      exact (ih (n + 1)).cons e

/-- When no entry of the list is placeable, the loop draws nothing. -/
lemma placeSlots_nil (p n : ℕ) (l : List ImageEntry)
    (h : ∀ e ∈ l, ok e = false) : placeSlots p n l = [] := by
  induction l generalizing n with
  | nil => simp [placeSlots]
  | cons e rest ih =>
    simp only [placeSlots]
    rw [if_neg (by simp [h e (by simp)])]
    exact ih (n + 1) (fun f hf => h f (by simp [hf]))

/-- The page slice equals a plain `take 6` of the dropped list: the slice
bound `min ((p+1)*6, N) - p*6` and the bound 6 cut the same prefix. -/
lemma page_images_eq_take (l : List ImageEntry) (p : ℕ) :
    page_images l p = (l.drop (p * images_per_page)).take images_per_page := by
  unfold page_images
  simp only [images_per_page]
  rw [List.take_eq_take]
  simp only [List.length_drop]
  omega

/-- Slices of successive pages walk the list six entries at a time. -/
lemma page_images_succ (l : List ImageEntry) (p : ℕ) :
    page_images l (p + 1) = page_images (l.drop images_per_page) p := by
  rw [page_images_eq_take, page_images_eq_take, List.drop_drop]
  have harith : images_per_page + p * images_per_page = (p + 1) * images_per_page := by
    ring
  rw [harith]

/-- A page holds at most `images_per_page` entries. -/
lemma page_images_length_le (l : List ImageEntry) (p : ℕ) :
    (page_images l p).length ≤ images_per_page := by
  rw [page_images_eq_take]
  exact List.length_take_le _ _

/-- Entries of a page slice come from the input list. -/
lemma mem_page_images (l : List ImageEntry) (p : ℕ) (e : ImageEntry)
    (h : e ∈ page_images l p) : e ∈ l := by
  rw [page_images_eq_take] at h
  exact List.mem_of_mem_drop (List.mem_of_mem_take h)

/-- Concatenating all page slices in page order reproduces the input list. -/
lemma flatMap_page_images (l : List ImageEntry) :
    (List.range (total_pages l.length)).flatMap (page_images l) = l := by
  suffices haux : ∀ (N : ℕ) (l2 : List ImageEntry), l2.length ≤ N →
      (List.range (total_pages l2.length)).flatMap (page_images l2) = l2 from
    haux l.length l le_rfl
  intro N
  induction N with
  | zero =>
    intro l2 hl2
    have hnil : l2 = [] := List.length_eq_zero.1 (by omega)
    subst hnil
    simp [total_pages, images_per_page]
  | succ N ih =>
    intro l2 hl2
    rcases Nat.eq_zero_or_pos l2.length with hz | hpos
    · have hnil : l2 = [] := List.length_eq_zero.1 hz
      subst hnil
      simp [total_pages, images_per_page]
    · have hstep : total_pages l2.length =
          total_pages (l2.drop images_per_page).length + 1 := by
        simp only [total_pages, images_per_page, List.length_drop]
        omega
      rw [hstep, List.range_succ_eq_map, List.flatMap_cons, List.flatMap_map]
      have hpages : ∀ p, page_images l2 (p + 1) =
          page_images (l2.drop images_per_page) p := page_images_succ l2
      have hrest : (List.range (total_pages (l2.drop images_per_page).length)).flatMap
          (fun a => page_images l2 (a + 1)) = l2.drop images_per_page := by
        have hdroplen : (l2.drop images_per_page).length ≤ N := by
          simp only [List.length_drop, images_per_page]
          omega
        calc (List.range (total_pages (l2.drop images_per_page).length)).flatMap
              (fun a => page_images l2 (a + 1))
            = (List.range (total_pages (l2.drop images_per_page).length)).flatMap
              (page_images (l2.drop images_per_page)) := by
              apply List.flatMap_congr
              intro a _
              exact hpages a
          _ = l2.drop images_per_page := ih _ hdroplen
      rw [hrest]
      have hfirst : page_images l2 0 = l2.take images_per_page := by
        rw [page_images_eq_take]
        simp
      rw [hfirst, List.take_append_drop]

/-- C1 (counterexample): on a page whose first entry has a missing file, the
code keeps the surviving second entry at slot 1 (row 0, col 1) — the
enumeration index of line 100 advances past skipped entries — whereas the
spec-modelled compacted layout would move it to slot 0 (row 0, col 0). The
claimed compaction is therefore not the code's behavior. -/
theorem skipped_entry_keeps_slot :
    placePage [badEntry, goodEntry] 0 = [⟨0, 1, 0, 1, goodEntry⟩] ∧
    placePageCompacted [badEntry, goodEntry] 0 = [⟨0, 0, 0, 0, goodEntry⟩] ∧
    placePage [badEntry, goodEntry] 0 ≠ placePageCompacted [badEntry, goodEntry] 0 := by
  refine ⟨by decide, by decide, by decide⟩

/-- C1 (amended): the slot index used for row/column assignment is the
entry's nominal position within the page's input slice, counting skipped
entries: an image is drawn with slot `i` exactly when the page slice holds a
placeable entry at index `i`, and its grid cell is `(i / 2, i % 2)`. Skipped
entries keep their slot unused; later entries do not shift up. -/
theorem slot_is_nominal_position (l : List ImageEntry) (p : ℕ) (q : PlacedImage) :
    q ∈ placePage l p ↔
      ∃ i e, (page_images l p)[i]? = some e ∧ ok e = true ∧
        q = ⟨p, i, i / 2, i % 2, e⟩ := by
  unfold placePage
  simpa using mem_placeSlots p 0 (page_images l p) q

/-- C2 (code bug): when the final save fails, `create_a4_pdf` returns `false`,
but `batch_process_folder` discards that result (line 223) and still returns
`true` (line 226) — the batch success signal does not report the failure. -/
theorem batch_ignores_save_failure :
    (batch_process_folder true [goodEntry] false).success = true ∧
    (batch_process_folder true [goodEntry] false).pdf =
      some (create_a4_pdf [goodEntry] false) ∧
    (create_a4_pdf [goodEntry] false).2 = false := by
  refine ⟨rfl, rfl, rfl⟩

/-- C3: pagination produces the ceiling of `N / 6` pages (`total_pages N` is
the least `k` with `N ≤ 6 * k`), page `p` holds exactly the entries at input
indices `[p * 6, min ((p + 1) * 6) N)` in original order, and concatenating
all pages in page order reproduces the input list. -/
theorem pagination_exact (l : List ImageEntry) :
    (l.length ≤ images_per_page * total_pages l.length ∧
      ∀ k, l.length ≤ images_per_page * k → total_pages l.length ≤ k) ∧
    (∀ p i, (page_images l p)[i]? =
      if p * images_per_page + i < min ((p + 1) * images_per_page) l.length
      then l[p * images_per_page + i]? else none) ∧
    (List.range (total_pages l.length)).flatMap (page_images l) = l := by
  refine ⟨⟨?_, ?_⟩, ?_, flatMap_page_images l⟩
  · simp only [total_pages, images_per_page]
    omega
  · intro k hk
    simp only [total_pages, images_per_page] at *
    omega
  · intro p i
    unfold page_images
    simp only [images_per_page] at *
    rw [List.getElem?_take]
    by_cases hcond : p * 6 + i < min ((p + 1) * 6) l.length
    · rw [if_pos (by omega), List.getElem?_drop, if_pos hcond]
    · rw [if_neg (by omega), if_neg hcond]

/-- C3 witness: at the concrete thirteen-entry list, three pages suffice. -/
theorem pagination_exact_witness : total_pages l13.length ≤ 3 :=
  (pagination_exact l13).1.2 3 (by decide)

/-- C9: with zero images discovered, `batch_process_folder` emits the
no-images warning, reports failure, and never creates a document, whatever
would have happened at save time. -/
theorem no_images_reports_failure :
    ∀ saveOk : Bool, batch_process_folder true [] saveOk =
      ⟨false, true, none⟩ := by
  intro saveOk
  rfl

/-- C10: `create_a4_pdf` returns `true` whenever canvas creation and the
final save succeed, regardless of per-item failures: even when every entry
fails to place (so nothing at all is drawn), the result is still `true`. -/
theorem create_true_despite_item_failures (entries : List ImageEntry) :
    (create_a4_pdf entries true).2 = true ∧
    ((∀ e ∈ entries, ok e = false) → (create_a4_pdf entries true).1 = []) := by
  refine ⟨rfl, ?_⟩
  intro hall
  unfold create_a4_pdf
  simp only
  rw [List.flatMap_eq_nil_iff]
  intro p _
  unfold placePage
  exact placeSlots_nil p 0 (page_images entries p)
    (fun e he => hall e (mem_page_images entries p e he))

/-- C10 witness: a single missing-file entry produces an empty layout and a
`true` result. -/
theorem create_true_despite_item_failures_witness :
    (create_a4_pdf [badEntry] true).2 = true ∧
    (create_a4_pdf [badEntry] true).1 = [] :=
  ⟨(create_true_despite_item_failures [badEntry]).1,
   (create_true_despite_item_failures [badEntry]).2 (by decide)⟩

/-- C4: for positive image and cell dimensions, the computed scale fits the
image inside the cell on both axes, exactly filling at least one of them. -/
theorem scale_fits (iw ih cw ch : ℚ)
    (hiw : 0 < iw) (hih : 0 < ih) (hcw : 0 < cw) (hch : 0 < ch) :
    iw * (computePlacement iw ih cw ch).scale ≤ cw ∧
    ih * (computePlacement iw ih cw ch).scale ≤ ch ∧
    (iw * (computePlacement iw ih cw ch).scale = cw ∨
     ih * (computePlacement iw ih cw ch).scale = ch) := by
  simp only [computePlacement, fitScale]
  by_cases hcase : cw / ch < iw / ih
  · rw [if_pos (by simpa using hcase)]
    have hxw : iw * (cw / iw) = cw := by field_simp
    have hcross : cw * ih < iw * ch := (div_lt_div_iff₀ hch hih).1 hcase
    have hyh : ih * (cw / iw) ≤ ch := by
      rw [← mul_div_assoc, div_le_iff₀ hiw]
      nlinarith
    exact ⟨le_of_eq hxw, hyh, Or.inl hxw⟩
  · rw [if_neg (by simpa using hcase)]
    push_neg at hcase
    have hyh : ih * (ch / ih) = ch := by field_simp
    have hcross : iw * ch ≤ cw * ih := (div_le_div_iff₀ hih hch).1 hcase
    have hxw : iw * (ch / ih) ≤ cw := by
      rw [← mul_div_assoc, div_le_iff₀ hih]
      nlinarith
    exact ⟨hxw, le_of_eq hyh, Or.inr hyh⟩

/-- C4 witness: a 2 × 1 image in a 1 × 1 cell is scaled by 1/2, filling the
width exactly and leaving vertical slack. -/
theorem scale_fits_witness :
    (2 : ℚ) * (computePlacement 2 1 1 1).scale ≤ 1 ∧
    (1 : ℚ) * (computePlacement 2 1 1 1).scale ≤ 1 ∧
    ((2 : ℚ) * (computePlacement 2 1 1 1).scale = 1 ∨
     (1 : ℚ) * (computePlacement 2 1 1 1).scale = 1) :=
  scale_fits 2 1 1 1 (by norm_num) (by norm_num) (by norm_num) (by norm_num)

/-- C5: the implementation realizes exactly the spec's placement formulas —
`scale = cw/iw` when `iw/ih > cw/ch` and `ch/ih` otherwise, with offsets
`(cw − iw·scale)/2` and `(ch − ih·scale)/2` — and those offsets center the
scaled image: the gap on the right of the image equals the gap on its left,
and likewise above and below. -/
theorem placement_centered (iw ih cw ch : ℚ)
    (hiw : 0 < iw) (hih : 0 < ih) (hcw : 0 < cw) (hch : 0 < ch) :
    computePlacement iw ih cw ch = computePlacementSpec iw ih cw ch ∧
    cw - ((computePlacement iw ih cw ch).offsetX +
        iw * (computePlacement iw ih cw ch).scale) =
      (computePlacement iw ih cw ch).offsetX ∧
    ch - ((computePlacement iw ih cw ch).offsetY +
        ih * (computePlacement iw ih cw ch).scale) =
      (computePlacement iw ih cw ch).offsetY := by
  refine ⟨rfl, ?_, ?_⟩ <;>
    simp only [computePlacement] <;>
    ring

/-- C5 witness: the unit image in the unit cell is centered with zero
offsets and unit scale. -/
theorem placement_centered_witness :
    computePlacement 1 1 1 1 = computePlacementSpec 1 1 1 1 ∧
    (1 : ℚ) - ((computePlacement 1 1 1 1).offsetX +
        1 * (computePlacement 1 1 1 1).scale) =
      (computePlacement 1 1 1 1).offsetX ∧
    (1 : ℚ) - ((computePlacement 1 1 1 1).offsetY +
        1 * (computePlacement 1 1 1 1).scale) =
      (computePlacement 1 1 1 1).offsetY :=
  placement_centered 1 1 1 1 (by norm_num) (by norm_num) (by norm_num) (by norm_num)

/-- C7: every drawn image sits in the cell `(row = slot / 2, col = slot % 2)`;
and on a thirteen-entry input of placeable images the pages have sizes
`[6, 6, 1]`, with the thirteenth entry alone occupying row 0, col 0 of the
third page. -/
theorem cell_assignment (l : List ImageEntry)
    (hlen : l.length = 13) (hok : ∀ e ∈ l, ok e = true) :
    (∀ (l2 : List ImageEntry) (p : ℕ) (q : PlacedImage), q ∈ placePage l2 p →
      q.row = q.slot / 2 ∧ q.col = q.slot % 2) ∧
    total_pages l.length = 3 ∧
    (List.range (total_pages l.length)).map (fun p => (page_images l p).length) =
      [6, 6, 1] ∧
    ∃ e, l[12]? = some e ∧ placePage l 2 = [⟨2, 0, 0, 0, e⟩] := by
  have htp : total_pages l.length = 3 := by
    rw [hlen]
    rfl
  refine ⟨?_, htp, ?_, ?_⟩
  · intro l2 p q hq
    obtain ⟨i, e, _, _, rfl⟩ := (slot_is_nominal_position l2 p q).1 hq
    exact ⟨rfl, rfl⟩
  · rw [htp]
    have hr3 : List.range 3 = [0, 1, 2] := rfl
    rw [hr3]
    simp [page_images_eq_take, images_per_page, hlen]
  · have hdlen : (l.drop 12).length = 1 := by
      simp [hlen]
    obtain ⟨e, he⟩ := List.length_eq_one.1 hdlen
    have hmem : e ∈ l := List.mem_of_mem_drop (he ▸ List.mem_singleton_self e)
    refine ⟨e, ?_, ?_⟩
    · have hge : l[12]? = (l.drop 12)[0]? := by
        rw [List.getElem?_drop]
      rw [hge, he]
      rfl
    · unfold placePage
      rw [page_images_eq_take]
      have h12 : 2 * images_per_page = 12 := rfl
      rw [h12, he]
      simp [placeSlots, hok e hmem]

/-- C7 witness: the thirteen-entry list of placeable images indeed yields
three pages. -/
theorem cell_assignment_witness : total_pages l13.length = 3 :=
  (cell_assignment l13 (by decide) (by decide)).2.1

/-- C8: at most six images are drawn on a page; the drawn entries form a
sublist of the page's slice, so assignment order matches the (sorted) input
order; slots increase strictly along a page; distinct drawn images on one
page never share a cell; and distinct slots in 0..5 always give distinct
`(i / 2, i % 2)` cells. -/
theorem page_invariants (l : List ImageEntry) (p : ℕ) :
    (placePage l p).length ≤ images_per_page ∧
    ((placePage l p).map PlacedImage.entry).Sublist (page_images l p) ∧
    (placePage l p).Pairwise (fun a b => a.slot < b.slot) ∧
    (∀ q1 q2 : PlacedImage, q1 ∈ placePage l p → q2 ∈ placePage l p →
      q1 ≠ q2 → (q1.row, q1.col) ≠ (q2.row, q2.col)) ∧
    (∀ i j : ℕ, i < 6 → j < 6 → i ≠ j → (i / 2, i % 2) ≠ (j / 2, j % 2)) := by
  refine ⟨?_, ?_, ?_, ?_, ?_⟩
  · exact le_trans (placeSlots_length_le p 0 (page_images l p))
      (page_images_length_le l p)
  · exact placeSlots_entries_sublist p 0 (page_images l p)
  · exact placeSlots_pairwise p 0 (page_images l p)
  · intro q1 q2 h1 h2 hne
    obtain ⟨i, e1, hi, _, rfl⟩ := (slot_is_nominal_position l p q1).1 h1
    obtain ⟨j, e2, hj, _, rfl⟩ := (slot_is_nominal_position l p q2).1 h2
    intro hcell
    simp only [Prod.mk.injEq] at hcell
    have hij : i = j := by omega
    subst hij
    rw [hi] at hj
    simp only [Option.some.injEq] at hj
    subst hj
    exact hne rfl
  · intro i j hi hj hne hcell
    simp only [Prod.mk.injEq] at hcell
    omega

/-- C8 witness: on a concrete two-entry page the two drawn images occupy
different cells. -/
theorem page_invariants_witness :
    ((⟨0, 0, 0, 0, goodEntry⟩ : PlacedImage).row,
     (⟨0, 0, 0, 0, goodEntry⟩ : PlacedImage).col) ≠
    ((⟨0, 1, 0, 1, entryB⟩ : PlacedImage).row,
     (⟨0, 1, 0, 1, entryB⟩ : PlacedImage).col) :=
  (page_invariants [goodEntry, entryB] 0).2.2.2.1
    ⟨0, 0, 0, 0, goodEntry⟩ ⟨0, 1, 0, 1, entryB⟩
    (by decide) (by decide) (by decide)

set_option maxHeartbeats 1600000 in
/-- C6: whenever the grid geometry is non-degenerate (positive inner margin
and positive cell width and height — as with the A4 constants, margin 40 and
inner margin 20), the six cell boxes for rows 0..2 and columns 0..1 are
pairwise disjoint and each lies inside the effective drawing area
`[margin, W - margin] × [margin, H - margin]`. -/
theorem cells_disjoint_in_area (W H m im : ℚ) (him : 0 < im)
    (hcw : 0 < cellW W m im) (hch : 0 < cellH H m im) :
    (∀ r1 c1 r2 c2 : ℕ, r1 < 3 → c1 < 2 → r2 < 3 → c2 < 2 →
      (r1, c1) ≠ (r2, c2) → ∀ q : ℚ × ℚ,
      ¬(pointInBox q (computeCellBox W H m im r1 c1) ∧
        pointInBox q (computeCellBox W H m im r2 c2))) ∧
    (∀ r c : ℕ, r < 3 → c < 2 → ∀ q : ℚ × ℚ,
      pointInBox q (computeCellBox W H m im r c) → pointInArea q W H m) := by
  have hcw2 : 0 < W - 2 * m - im := by
    unfold cellW at hcw
    linarith
  have hch2 : 0 < H - 2 * m - 2 * im := by
    unfold cellH at hch
    linarith
  constructor
  · intro r1 c1 r2 c2 hr1 hc1 hr2 hc2 hne q hq
    obtain ⟨hb1, hb2⟩ := hq
    interval_cases r1 <;> interval_cases c1 <;> interval_cases r2 <;>
      interval_cases c2 <;>
      simp only [computeCellBox, pointInBox, cellW, cellH, Nat.cast_zero,
        Nat.cast_one, Nat.cast_ofNat, ne_eq, Prod.mk.injEq, not_and] at hne hb1 hb2 <;>
      first
        | exact hne trivial
        | (obtain ⟨ha1, ha2, ha3, ha4⟩ := hb1
           obtain ⟨hb1a, hb2a, hb3a, hb4a⟩ := hb2
           linarith)
  · intro r c hr hc q hq
    obtain ⟨h1, h2, h3, h4⟩ := hq
    interval_cases r <;> interval_cases c <;>
      simp only [computeCellBox, pointInBox, cellW, cellH, Nat.cast_zero,
        Nat.cast_one, Nat.cast_ofNat] at h1 h2 h3 h4 <;>
      exact ⟨by linarith, by linarith, by linarith, by linarith⟩

/-- C6 witness: at the A4 constants, the point (100, 100) cannot lie in both
the (0,0) cell and the (0,1) cell. -/
theorem cells_disjoint_in_area_witness :
    ¬(pointInBox (100, 100) (computeCellBox a4_width a4_height margin inner_margin 0 0) ∧
      pointInBox (100, 100) (computeCellBox a4_width a4_height margin inner_margin 0 1)) :=
  (cells_disjoint_in_area a4_width a4_height margin inner_margin
      (by norm_num [inner_margin])
      (by norm_num [cellW, a4_width, margin, inner_margin])
      (by norm_num [cellH, a4_height, margin, inner_margin])).1
    0 0 0 1 (by norm_num) (by norm_num) (by norm_num) (by norm_num)
    (by decide) (100, 100)

end A4Tool
